import Mathlib

/-!
Verification of the PrintQual aggregation-and-validation engine.

Shallow embedding of the core modules:
  - core/auto_header_detector.py (find_header_row)
  - core/detector.py              (find_fuzzy_column_match)
  - core/spec_validator.py        (SpecValidator)
  - core/pivot_generator.py       (UnifiedPivotGenerator pivots and grand totals)
  - pivot_generator.py            (threshold-mode Pass/Fail entry points)
  - test_category_config.py       (TestCategoryConfig.get_spec_for_media_type)

Python strings are modelled as `List Char` (so that every operation is
structurally recursive and kernel-evaluable); pandas NaN cells are modelled
as `none : Option (List Char)`.  Numeric cell values are modelled as `ℚ`;
`round(x, 3)` is modelled exactly (round-half-to-even on the scaled value,
as Python rounds; no claim below depends on the tie-breaking direction).
-/

namespace PrintQual

/-- Python `str.lower()` on a character list. -/
def lowerL (l : List Char) : List Char := l.map Char.toLower

/-- Python `str.strip()` on a character list. -/
def trimL (l : List Char) : List Char :=
  ((l.dropWhile Char.isWhitespace).reverse.dropWhile Char.isWhitespace).reverse

/-- Helper for `splitComma`; the accumulator holds the current token reversed. -/
def splitCommaAux : List Char → List Char → List (List Char)
  | [], acc => [acc.reverse]
  | c :: cs, acc =>
      if c = ',' then acc.reverse :: splitCommaAux cs [] else splitCommaAux cs (c :: acc)

/-- Python `str.split(",")` on a character list. -/
def splitComma (l : List Char) : List (List Char) := splitCommaAux l []

/-- Python `str.replace(a, b)` for one-character patterns. -/
def replaceCh (a b : Char) (l : List Char) : List Char :=
  l.map (fun c => if c = a then b else c)

/-- Whether `p` is an initial segment of `l`. -/
def listStartsWith : List Char → List Char → Bool
  | [], _ => true
  | _ :: _, [] => false
  | p :: ps, h :: hs => p == h && listStartsWith ps hs

/-- Python `pat in hay` (substring containment). -/
def containsSub : List Char → List Char → Bool
  | [], pat => pat.isEmpty
  | h :: t, pat => listStartsWith pat (h :: t) || containsSub t pat

/-- Python `round(x)` on an exact rational: round half to even. -/
def pyRound (x : ℚ) : ℤ :=
  let f := ⌊x⌋
  if x - (f : ℚ) < 1 / 2 then f
  else if (1 : ℚ) / 2 < x - (f : ℚ) then f + 1
  else if f % 2 = 0 then f else f + 1

/-- Python `round(x, 3)` on an exact rational. -/
def round3 (x : ℚ) : ℚ := (pyRound (x * 1000) : ℚ) / 1000

/-! ## core/spec_validator.py -/

/-- One row of the category-scoped specification table: the dimension cells
(association list column-name ↦ cell, `none` = NaN) and the numeric
"Spec (per K)" cell (`none` = missing/NaN). -/
structure SpecRow where
  cells : List (List Char × Option (List Char))
  specPerK : Option ℚ
deriving DecidableEq

/-- The specification table after `load_specs`: its column names and rows. -/
structure SpecTable where
  cols : List (List Char)
  rows : List SpecRow
deriving DecidableEq

/-- Reads a cell of a spec row by column name; an absent entry is NaN. -/
def getCell (r : SpecRow) (c : List Char) : Option (List Char) :=
  (r.cells.find? (fun p => p.1 == c)).bind (fun p => p.2)

/-- pandas `astype(str)` on a possibly-NaN cell: NaN prints as "nan". -/
def pyStr (c : Option (List Char)) : List Char :=
  match c with
  | none => "nan".data
  | some s => s

/-- `SpecValidator.load_specs`: require the "Spec Category" column, keep the
rows whose stripped lower-cased category cell equals the lower-cased requested
category, and fail when none survive. -/
def load_specs (cols : List (List Char)) (rows : List SpecRow) (specCategory : List Char) :
    Except (List Char) SpecTable :=
  if "Spec Category".data ∈ cols then
    let df := rows.filter
      (fun r => lowerL (trimL (pyStr (getCell r "Spec Category".data))) == lowerL specCategory)
    if df.isEmpty then Except.error "No specs found".data
    else Except.ok ⟨cols, df⟩
  else Except.error "Spec file missing Spec Category column".data

/-- `SpecValidator.cell_matches`: a NaN or blank spec cell is a wildcard;
otherwise the stripped lower-cased cell is split on commas, each token
stripped, and the pivot value must be one of the tokens. -/
def cell_matches (spec_cell : Option (List Char)) (pivot_value : List Char) : Bool :=
  match spec_cell with
  | none => true
  | some raw =>
      let s := lowerL (trimL raw)
      if s = [] then true
      else decide (pivot_value ∈ (splitComma s).map trimL)

/-- The fixed attribute priority order of `SpecValidator.find_best_spec_row`. -/
def priority_order : List (List Char) :=
  ["Product".data, "Sub Assembly".data, "Test Condition".data, "Input Tray".data,
   "Print Mode".data, "Media Type".data, "Media Cat".data, "Print Quality".data]

/-- Looks up an attribute value in the extracted context. -/
def ctxGet (ctx : List (List Char × List Char)) (c : List Char) : Option (List Char) :=
  (ctx.find? (fun p => p.1 == c)).map (fun p => p.2)

/-- The candidate-narrowing loop of `find_best_spec_row`: for each priority
column present in the table and in the context, filter by `cell_matches`,
keep the previous candidates when the filter would empty the set, and stop
as soon as exactly one candidate remains. -/
def narrowAux (tcols : List (List Char)) (ctx : List (List Char × List Char)) :
    List (List Char) → List SpecRow → List SpecRow
  | [], df => df
  | col :: rest, df =>
      if col ∈ tcols then
        match ctxGet ctx col with
        | some v =>
            let matched := df.filter (fun r => cell_matches (getCell r col) v)
            let df2 := if matched.isEmpty then df else matched
            if df2.length = 1 then df2 else narrowAux tcols ctx rest df2
        | none => narrowAux tcols ctx rest df
      else narrowAux tcols ctx rest df

/-- `SpecValidator.find_best_spec_row`: narrow and return the first remaining
row, or `none` when no row remains. -/
def find_best_spec_row (t : SpecTable) (ctx : List (List Char × List Char)) : Option SpecRow :=
  (narrowAux t.cols ctx priority_order t.rows).head?

/-- The fixed pivot-row attribute list of `extract_test_context`. -/
def contextMapping : List (List Char) :=
  ["Test Condition".data, "Input Tray".data, "Print Mode".data,
   "Media Type".data, "Media Cat".data, "Print Quality".data]

/-- `SpecValidator.extract_test_context`: the stored product variant and sub
assembly (already stripped and lower-cased at construction), then each mapped
attribute present and non-NaN on the pivot row, stripped and lower-cased. -/
def extract_test_context (product subAssembly : Option (List Char))
    (pivotRow : List (List Char × Option (List Char))) : List (List Char × List Char) :=
  (match product with
   | some p => [("Product".data, p)]
   | none => []) ++
  (match subAssembly with
   | some sa => [("Sub Assembly".data, sa)]
   | none => []) ++
  contextMapping.filterMap (fun col =>
    match (pivotRow.find? (fun q => q.1 == col)).map (fun q => q.2) with
    | some (some v) => some (col, lowerL (trimL v))
    | _ => none)

/-- `SpecValidator.evaluate`: returns (spec limit, rounded actual rate,
outcome string).  `actualPerK = none` models a missing or NaN total cell; a
NaN "Spec (per K)" cell makes the Python comparison `actual <= limit` false,
hence "FAIL". -/
def evaluate (t : SpecTable) (product subAssembly : Option (List Char))
    (pivotRow : List (List Char × Option (List Char))) (actualPerK : Option ℚ) :
    Option ℚ × Option ℚ × List Char :=
  let ctx := extract_test_context product subAssembly pivotRow
  match find_best_spec_row t ctx with
  | none => (none, actualPerK, "SPEC NOT FOUND".data)
  | some specRow =>
      match actualPerK with
      | none => (specRow.specPerK, none, "NO DATA".data)
      | some a =>
          let result :=
            match specRow.specPerK with
            | some limit => if a ≤ limit then "PASS".data else "FAIL".data
            | none => "FAIL".data
          (specRow.specPerK, some (round3 a), result)

/-! ## test_category_config.py and the threshold-mode entry points of
pivot_generator.py -/

/-- A `threshold_specs` value: either a flat per-K limit or a per-print-mode
mapping of limits. -/
inductive Threshold where
  | flat (limit : ℚ)
  | byPrintMode (modes : List (List Char × ℚ))
deriving DecidableEq

/-- `TestCategoryConfig.get_spec_for_media_type`: look the media type up with
default 5; when the stored value is a per-print-mode mapping, look the print
mode up with default 5 (and 5 when no print mode is given). -/
def get_spec_for_media_type (thresholdSpecs : List (List Char × Threshold))
    (mediaType : List Char) (printMode : Option (List Char)) : ℚ :=
  match (thresholdSpecs.find? (fun p => p.1 == mediaType)).map (fun p => p.2) with
  | none => 5
  | some (Threshold.flat q) => q
  | some (Threshold.byPrintMode m) =>
      match printMode with
      | none => 5
      | some pm =>
          match (m.find? (fun p => p.1 == pm)).map (fun p => p.2) with
          | none => 5
          | some q => q

/-- The per-row Result lambda of the threshold-mode
`create_pivot_by_media_name` / `create_pivot_by_unit` in pivot_generator.py:
'Pass' when the total rate is strictly below the looked-up threshold. -/
def thresholdResult (thresholdSpecs : List (List Char × Threshold))
    (mediaType : List Char) (printMode : Option (List Char)) (totalRate : ℚ) : List Char :=
  if totalRate < get_spec_for_media_type thresholdSpecs mediaType printMode then
    "Pass".data
  else
    "Fail".data

/-! ## core/detector.py -/

/-- The normalization of `find_fuzzy_column_match`: lower-case, replace '_'
and '-' by spaces, strip. -/
def normalizeColName (s : List Char) : List Char :=
  trimL (replaceCh '-' ' ' (replaceCh '_' ' ' (lowerL s)))

/-- `find_fuzzy_column_match`: the first column whose normalization equals the
normalized target, or (only when the normalized target is longer than 5
characters) contains it or is contained in it. -/
def find_fuzzy_column_match (cols : List (List Char)) (targetCol : List Char) :
    Option (List Char) :=
  let tn := normalizeColName targetCol
  cols.findSome? (fun col =>
    let cn := normalizeColName col
    if tn = cn then some col
    else if 5 < tn.length ∧
        (containsSub cn tn = true ∨ containsSub tn cn = true) then some col
    else none)

/-! ## core/auto_header_detector.py -/

/-- The three key header substrings of `find_header_row`. -/
def keyColumns : List (List Char) :=
  ["test condition".data, "media type".data, "unit".data]

/-- Method-1 score of a row: how many key substrings occur in some stripped,
lower-cased cell of the row. -/
def rowScore (row : List (List Char)) : Nat :=
  (keyColumns.filter (fun k => row.any (fun v => containsSub (lowerL (trimL v)) k))).length

/-- The method-1 scan loop: fold over the rows with their index, replacing the
best match whenever a row scores at least 2 and strictly more than the best so
far (initial best: row 1, score 0). -/
def bestAux : Nat → Nat × Nat → List (List (List Char)) → Nat × Nat
  | _, best, [] => best
  | i, best, row :: rest =>
      let score := rowScore row
      bestAux (i + 1) (if 2 ≤ score ∧ best.2 < score then (i, score) else best) rest

/-- Method-2 count of a row: cells that strip to non-empty and whose
lower-cased text is neither "nan" nor "none". -/
def nonEmptyCount (row : List (List Char)) : Nat :=
  (row.filter (fun v => trimL v ≠ [] ∧ lowerL v ≠ "nan".data ∧ lowerL v ≠ "none".data)).length

/-- `find_header_row` over the stringified sheet (each cell is `str(v)`):
method 1 wins when the best score reaches 2; otherwise the first of the
scanned rows with at least 8 countable cells; otherwise row index 1. -/
def find_header_row (table : List (List (List Char))) : Nat :=
  let rows := table.take 20
  let best := bestAux 0 (1, 0) rows
  if 2 ≤ best.2 then best.1
  else
    match rows.findIdx? (fun row => 8 ≤ nonEmptyCount row) with
    | some i => i
    | none => 1

/-! ## core/pivot_generator.py -/

/-- An aggregated pivot row: the values of the outer grouping columns, the
value of the innermost (terminal) dimension column, the summed page count, the
per-metric '/K' rate cells and the category total-rate cell. -/
structure PivotRow where
  key : List (List Char)
  terminal : List Char
  tpages : ℚ
  perK : List ℚ
  total : ℚ
deriving DecidableEq

/-- Summed `Tpages` over a sibling group. -/
def sumT (subset : List PivotRow) : ℚ := (subset.map PivotRow.tpages).sum

/-- The weighted-average computation of `add_grand_totals` for one rate
column: `round(sum(rate * Tpages / 1000) / total_tpages * 1000, 3)`, or 0.0
when the summed page count is not positive. -/
def add_grand_total_rate (subset : List PivotRow) (col : PivotRow → ℚ) : ℚ :=
  let total_tpages := sumT subset
  if 0 < total_tpages then
    round3 ((subset.map (fun r => col r * r.tpages / 1000)).sum / total_tpages * 1000)
  else 0

/-- Number of per-metric '/K' columns of a sibling group. -/
def metricCount : List PivotRow → Nat
  | [] => 0
  | r :: _ => r.perK.length

/-- The synthesized grand-total row of one sibling group: the shared
combination values, the literal "Grand Total" marker in the terminal column,
the summed page count, and weighted averages for every rate column. -/
def grand_total_row (combo : List (List Char)) (subset : List PivotRow) : PivotRow :=
  { key := combo
    terminal := "Grand Total".data
    tpages := sumT subset
    perK := (List.range (metricCount subset)).map
      (fun i => add_grand_total_rate subset (fun r => r.perK.getD i 0))
    total := add_grand_total_rate subset PivotRow.total }

/-- pandas `drop_duplicates` on the grouping keys: first occurrences, in
order.  The `seen` accumulator keeps the keys already emitted. -/
def dedupKeysAux : List (List (List Char)) → List (List (List Char)) → List (List (List Char))
  | [], _ => []
  | k :: ks, seen =>
      if k ∈ seen then dedupKeysAux ks seen else k :: dedupKeysAux ks (k :: seen)

/-- The distinct grouping-key combinations, in first-occurrence order. -/
def dedupKeys (l : List (List (List Char))) : List (List (List Char)) := dedupKeysAux l []

/-- `UnifiedPivotGenerator.add_grand_totals`: for each combination, emit its
sibling detail rows followed by a synthesized grand-total row, the latter only
when the sibling group has more than one row. -/
def add_grand_totals (df : List PivotRow) : List PivotRow :=
  (dedupKeys (df.map PivotRow.key)).flatMap (fun combo =>
    let subset := df.filter (fun r => r.key == combo)
    if subset.length ≤ 1 then subset
    else subset ++ [grand_total_row combo subset])

/-- The dynamic groupby-column list of `create_pivot_by_media_name`: the fixed
candidates in construction order, then the category's extra grouping columns,
then "Media Name", each kept only when present in the data. -/
def media_groupby_cols (availableCols extraCols : List (List Char)) : List (List Char) :=
  (["Test Condition".data, "Test mode".data, "Media Cat".data, "Input_Tray".data,
    "Media Type".data, "Print Mode".data].filter (fun c => decide (c ∈ availableCols)) ++
   extraCols.filter (fun c => decide (c ∈ availableCols))) ++
  (if "Media Name".data ∈ availableCols then ["Media Name".data] else [])

/-- The grand-total gate at the end of `create_pivot_by_media_name`: grand
totals are added only when "Media Name" is a column of the data and more than
one grouping column is in play. -/
def create_pivot_by_media_grand_totals (availableCols extraCols : List (List Char))
    (pivot : List PivotRow) : List PivotRow :=
  if "Media Name".data ∈ availableCols ∧ 1 < (media_groupby_cols availableCols extraCols).length
  then add_grand_totals pivot
  else pivot

/-- One prepared raw record: the grouping-key values, the numeric page count
and the per-metric error counts. -/
structure RawRecord where
  key : List (List Char)
  tpages : ℚ
  errs : List ℚ
deriving DecidableEq

/-- groupby sum of `Tpages` over one group of records. -/
def sumTpages (g : List RawRecord) : ℚ := (g.map RawRecord.tpages).sum

/-- groupby sum of the i-th error column over one group of records. -/
def sumErr (g : List RawRecord) (i : Nat) : ℚ := (g.map (fun r => r.errs.getD i 0)).sum

/-- The rate derivation of `create_pivot_by_media_name` for one group: summed
page count, `metric/K = round(sum(metric) / sum(Tpages) * 1000, 3)` for each
of the `n` metrics, and the total column `round(sum of the per-K cells, 3)`. -/
def aggregate_group (k : List (List Char)) (n : Nat) (g : List RawRecord) : PivotRow :=
  let perK := (List.range n).map (fun i => round3 (sumErr g i / sumTpages g * 1000))
  { key := k
    terminal := []
    tpages := sumTpages g
    perK := perK
    total := round3 perK.sum }

/-- The groupby-aggregate step: one pivot row per distinct key, in
first-occurrence order. -/
def make_pivot (n : Nat) (df : List RawRecord) : List PivotRow :=
  (dedupKeys (df.map RawRecord.key)).map
    (fun k => aggregate_group k n (df.filter (fun r => r.key == k)))

/-! ## Helper lemmas -/

lemma getD_range_map (n i : Nat) (f : Nat → ℚ) (h : i < n) :
    ((List.range n).map f).getD i 0 = f i := by
  rw [List.getD_eq_getElem?_getD, List.getElem?_map, List.getElem?_range h]
  rfl

/-! ## Claims -/

/-- Claim C1: for every sibling group of more than one detail row (with a
positive summed page count, so that the weighted average is defined), each
grand-total rate column — every per-metric '/K' column and the category total
column — equals
`round( Σ(rate * pageCount / 1000) / Σ(pageCount) * 1000, 3 )`, a
page-count-weighted average of the already-rounded per-row rates; in
particular for siblings (1000, 2.0) and (3000, 6.0) the grand-total rate is
5.0, not the naive average 4.0. -/
theorem claim_C1_weighted_grand_total :
    (∀ (combo : List (List Char)) (subset : List PivotRow),
        1 < subset.length → 0 < sumT subset →
        (∀ i, i < metricCount subset →
            (grand_total_row combo subset).perK.getD i 0 =
              round3 ((subset.map (fun r => r.perK.getD i 0 * r.tpages / 1000)).sum
                / sumT subset * 1000)) ∧
        (grand_total_row combo subset).total =
          round3 ((subset.map (fun r => r.total * r.tpages / 1000)).sum
            / sumT subset * 1000)) ∧
    add_grand_total_rate [⟨[], [], 1000, [2], 2⟩, ⟨[], [], 3000, [6], 6⟩] PivotRow.total = 5 ∧
    ((2 : ℚ) + 6) / 2 = 4 ∧ (5 : ℚ) ≠ 4 := by
  refine ⟨?_, ?_, by norm_num, by norm_num⟩
  · intro combo subset _ hpos
    constructor
    · intro i hi
      show ((List.range (metricCount subset)).map
          (fun i => add_grand_total_rate subset (fun r => r.perK.getD i 0))).getD i 0 = _
      rw [getD_range_map _ _ _ hi]
      unfold add_grand_total_rate
      rw [if_pos hpos]
    · show add_grand_total_rate subset PivotRow.total = _
      unfold add_grand_total_rate
      rw [if_pos hpos]
  · norm_num [add_grand_total_rate, sumT, round3, pyRound]

/-- Witness for C1 at the two-sibling group (1000, 2.0), (3000, 6.0). -/
theorem claim_C1_witness :
    (grand_total_row [] [⟨[], [], 1000, [2], 2⟩, ⟨[], [], 3000, [6], 6⟩]).total =
      round3 ((([⟨[], [], 1000, [2], 2⟩, ⟨[], [], 3000, [6], 6⟩] : List PivotRow).map
          (fun r => r.total * r.tpages / 1000)).sum
        / sumT [⟨[], [], 1000, [2], 2⟩, ⟨[], [], 3000, [6], 6⟩] * 1000) :=
  (claim_C1_weighted_grand_total.1 [] [⟨[], [], 1000, [2], 2⟩, ⟨[], [], 3000, [6], 6⟩]
    (by decide) (by norm_num [sumT])).2

/-- Claim C5: a grand-total group whose summed page count is zero gets the
exact rate 0.0 in every per-metric '/K' column and in the total column. -/
theorem claim_C5_zero_weight_safety :
    ∀ (combo : List (List Char)) (subset : List PivotRow),
      sumT subset = 0 →
      (∀ x ∈ (grand_total_row combo subset).perK, x = 0) ∧
      (grand_total_row combo subset).total = 0 := by
  intro combo subset h
  have hr : ∀ col : PivotRow → ℚ, add_grand_total_rate subset col = 0 := by
    intro col
    unfold add_grand_total_rate
    rw [h]
    simp
  constructor
  · intro x hx
    simp only [grand_total_row, List.mem_map, List.mem_range] at hx
    obtain ⟨i, _, rfl⟩ := hx
    exact hr _
  · exact hr _

/-- Witness for C5 at a one-row group with zero pages. -/
theorem claim_C5_witness :
    (grand_total_row [] [⟨[], [], 0, [0], 0⟩]).total = 0 :=
  (claim_C5_zero_weight_safety [] [⟨[], [], 0, [0], 0⟩] (by norm_num [sumT])).2

/-- Claim C6: every aggregated group's per-metric rate column equals
`round(sum(metricCount) / sum(pageCount) * 1000, 3)` and its total-rate
column equals `round(Σ metric/K, 3)`; in particular a group with summed
pageCount 2000 and summed metric count 7 yields metric/K exactly 3.5. -/
theorem claim_C6_rate_formula :
    (∀ (n : Nat) (df : List RawRecord) (k : List (List Char)),
        k ∈ dedupKeys (df.map RawRecord.key) →
        aggregate_group k n (df.filter (fun r => r.key == k)) ∈ make_pivot n df ∧
        (∀ i, i < n →
            (aggregate_group k n (df.filter (fun r => r.key == k))).perK.getD i 0 =
              round3 (sumErr (df.filter (fun r => r.key == k)) i /
                sumTpages (df.filter (fun r => r.key == k)) * 1000)) ∧
        (aggregate_group k n (df.filter (fun r => r.key == k))).total =
          round3 (aggregate_group k n (df.filter (fun r => r.key == k))).perK.sum) ∧
    (aggregate_group [] 1 [⟨[], 1500, [3]⟩, ⟨[], 500, [4]⟩]).perK = [7/2] := by
  constructor
  · intro n df k hk
    refine ⟨List.mem_map_of_mem _ hk, ?_, rfl⟩
    intro i hi
    show ((List.range n).map
        (fun i => round3 (sumErr (df.filter (fun r => r.key == k)) i /
          sumTpages (df.filter (fun r => r.key == k)) * 1000))).getD i 0 = _
    rw [getD_range_map _ _ _ hi]
  · norm_num [aggregate_group, sumErr, sumTpages, round3, pyRound, List.range_succ]

/-- Witness for C6 at a group of two records with pages 1500+500 and counts
3+4. -/
theorem claim_C6_witness :
    (aggregate_group [] 1
        (([⟨[], 1500, [3]⟩, ⟨[], 500, [4]⟩] : List RawRecord).filter
          (fun r => r.key == []))).perK.getD 0 0 =
      round3 (sumErr (([⟨[], 1500, [3]⟩, ⟨[], 500, [4]⟩] : List RawRecord).filter
          (fun r => r.key == [])) 0 /
        sumTpages (([⟨[], 1500, [3]⟩, ⟨[], 500, [4]⟩] : List RawRecord).filter
          (fun r => r.key == [])) * 1000) :=
  ((claim_C6_rate_formula.1 1 [⟨[], 1500, [3]⟩, ⟨[], 500, [4]⟩] []
    (by decide)).2.1 0 (by decide))

/-- Claim C4: a NaN cell is a wildcard; a cell that strips to blank is a
wildcard; otherwise the cell matches exactly the values among its
comma-separated, trimmed, lower-cased tokens — "plain, brochure" matches
"plain" and "brochure" but not "photo". -/
theorem claim_C4_wildcard_and_comma_list :
    (∀ v, cell_matches none v = true) ∧
    (∀ raw v, lowerL (trimL raw) = [] → cell_matches (some raw) v = true) ∧
    (∀ raw v, cell_matches (some raw) v = true ↔
        (lowerL (trimL raw) = [] ∨ v ∈ (splitComma (lowerL (trimL raw))).map trimL)) ∧
    cell_matches (some "plain, brochure".data) "plain".data = true ∧
    cell_matches (some "plain, brochure".data) "brochure".data = true ∧
    cell_matches (some "plain, brochure".data) "photo".data = false := by
  refine ⟨fun v => rfl, ?_, ?_, by decide, by decide, by decide⟩
  · intro raw v h
    simp [cell_matches, h]
  · intro raw v
    by_cases h : lowerL (trimL raw) = [] <;> simp [cell_matches, h]

/-- Witness for C4 at a cell of blanks. -/
theorem claim_C4_witness :
    cell_matches (some "   ".data) "photo".data = true :=
  claim_C4_wildcard_and_comma_list.2.1 "   ".data "photo".data (by decide)

/-- Counterexample to claim C2 as stated: in the threshold-mode entry points
(`create_pivot_by_media_name` / `create_pivot_by_unit` of pivot_generator.py)
a total rate exactly equal to the looked-up limit is classified 'Fail', not
Pass — the comparison there is strict `<`. -/
theorem claim_C2_counterexample :
    thresholdResult [("Plain".data, Threshold.flat 5)] "Plain".data none 5 = "Fail".data ∧
    thresholdResult [("Plain".data, Threshold.flat 5)] "Plain".data none 5 ≠ "Pass".data := by
  exact ⟨by decide, by decide⟩

/-- Claim C2 as amended: in `SpecValidator.evaluate` (the spec-file path) a
row with a matched limit and a non-missing total rate is PASS exactly when
the actual rate is ≤ the limit (equality ⇒ PASS); the threshold-mode entry
points instead classify Pass exactly when the total rate is strictly below
the looked-up threshold, so equality yields Fail there. -/
theorem claim_C2_pass_boundary_amended :
    (∀ (t : SpecTable) (product subAssembly : Option (List Char))
        (pivotRow : List (List Char × Option (List Char))) (a limit : ℚ) (sr : SpecRow),
        find_best_spec_row t (extract_test_context product subAssembly pivotRow) = some sr →
        sr.specPerK = some limit →
        ((evaluate t product subAssembly pivotRow (some a)).2.2 = "PASS".data ↔ a ≤ limit)) ∧
    (∀ (thresholdSpecs : List (List Char × Threshold)) (mediaType : List Char)
        (printMode : Option (List Char)) (x : ℚ),
        thresholdResult thresholdSpecs mediaType printMode x = "Pass".data ↔
          x < get_spec_for_media_type thresholdSpecs mediaType printMode) := by
  constructor
  · intro t product subAssembly pivotRow a limit sr hfind hlim
    simp only [evaluate]
    rw [hfind]
    dsimp only
    rw [hlim]
    by_cases h : a ≤ limit
    · simp [h]
    · simp only [if_neg h]
      exact iff_of_false (by decide) h
  · intro thresholdSpecs mediaType printMode x
    unfold thresholdResult
    by_cases h : x < get_spec_for_media_type thresholdSpecs mediaType printMode
    · simp [h]
    · simp only [if_neg h]
      exact iff_of_false (by decide) h

/-- Witness for the amended C2: a one-row spec table with limit 5 and an
actual rate of exactly 5 evaluates to PASS. -/
theorem claim_C2_witness :
    (evaluate ⟨["Spec Category".data], [⟨[("Spec Category".data, some "skew".data)], some 5⟩]⟩
      none none [] (some 5)).2.2 = "PASS".data :=
  (claim_C2_pass_boundary_amended.1
    ⟨["Spec Category".data], [⟨[("Spec Category".data, some "skew".data)], some 5⟩]⟩
    none none [] 5 5 ⟨[("Spec Category".data, some "skew".data)], some 5⟩ rfl rfl).mpr le_rfl

/-- Claim C7: a grand-total row is synthesized only for a sibling detail
group of strictly more than one row, and the by-media view adds grand totals
at all only when "Media Name" is present and more than one grouping column is
in play. -/
theorem claim_C7_grand_total_suppression :
    (∀ df : List PivotRow,
        (∀ r ∈ df, r.terminal ≠ "Grand Total".data) →
        ∀ g ∈ add_grand_totals df, g.terminal = "Grand Total".data →
          1 < (df.filter (fun r => r.key == g.key)).length) ∧
    (∀ (availableCols extraCols : List (List Char)) (pivot : List PivotRow),
        ¬("Media Name".data ∈ availableCols ∧
            1 < (media_groupby_cols availableCols extraCols).length) →
        create_pivot_by_media_grand_totals availableCols extraCols pivot = pivot) := by
  constructor
  · intro df hdf g hg hterm
    unfold add_grand_totals at hg
    rw [List.mem_flatMap] at hg
    obtain ⟨combo, _, hgb⟩ := hg
    simp only at hgb
    by_cases hle : (df.filter (fun r => r.key == combo)).length ≤ 1
    · rw [if_pos hle] at hgb
      exact absurd hterm (hdf g (List.mem_of_mem_filter hgb))
    · rw [if_neg hle] at hgb
      rcases List.mem_append.1 hgb with h | h
      · exact absurd hterm (hdf g (List.mem_of_mem_filter h))
      · have hgr : g = grand_total_row combo (df.filter (fun r => r.key == combo)) := by
          simpa using h
        subst hgr
        have hkey : (grand_total_row combo (df.filter (fun r => r.key == combo))).key = combo :=
          rfl
        rw [hkey]
        omega
  · intro availableCols extraCols pivot h
    unfold create_pivot_by_media_grand_totals
    rw [if_neg h]

/-- Witness for C7 at a column set without "Media Name". -/
theorem claim_C7_witness :
    create_pivot_by_media_grand_totals ["Unit".data] [] [] = [] :=
  claim_C7_grand_total_suppression.2 ["Unit".data] [] [] (by decide)

lemma narrowAux_ne_nil (tcols : List (List Char)) (ctx : List (List Char × List Char)) :
    ∀ (order : List (List Char)) (df : List SpecRow),
      df ≠ [] → narrowAux tcols ctx order df ≠ [] := by
  intro order
  induction order with
  | nil => intro df hdf; exact hdf
  | cons col rest ih =>
      intro df hdf
      simp only [narrowAux]
      by_cases hc : col ∈ tcols
      · rw [if_pos hc]
        cases hctx : ctxGet ctx col with
        | none => exact ih df hdf
        | some v =>
            dsimp only
            have hne : (if (df.filter (fun r => cell_matches (getCell r col) v)).isEmpty
                then df
                else df.filter (fun r => cell_matches (getCell r col) v)) ≠ [] := by
              by_cases he : (df.filter (fun r => cell_matches (getCell r col) v)).isEmpty
              · rw [if_pos he]; exact hdf
              · rw [if_neg he]
                intro hnil
                exact he (by rw [hnil]; rfl)
            by_cases hlen : (if (df.filter (fun r => cell_matches (getCell r col) v)).isEmpty
                then df
                else df.filter (fun r => cell_matches (getCell r col) v)).length = 1
            · rw [if_pos hlen]; exact hne
            · rw [if_neg hlen]; exact ih _ hne
      · rw [if_neg hc]
        exact ih df hdf

lemma narrowAux_singleton (tcols : List (List Char)) (ctx : List (List Char × List Char)) :
    ∀ (order : List (List Char)) (df : List SpecRow),
      df.length = 1 → narrowAux tcols ctx order df = df := by
  intro order
  induction order with
  | nil => intro df _; rfl
  | cons col rest ih =>
      intro df hdf
      obtain ⟨r, rfl⟩ := List.length_eq_one.1 hdf
      simp only [narrowAux]
      by_cases hc : col ∈ tcols
      · rw [if_pos hc]
        cases hctx : ctxGet ctx col with
        | none => exact ih _ hdf
        | some v =>
            dsimp only
            by_cases hm : cell_matches (getCell r col) v
            · simp [List.filter_cons, hm]
            · simp [List.filter_cons, hm]
      · rw [if_neg hc]
        exact ih _ hdf

lemma narrowAux_sublist (tcols : List (List Char)) (ctx : List (List Char × List Char)) :
    ∀ (order : List (List Char)) (df : List SpecRow),
      (narrowAux tcols ctx order df).Sublist df := by
  intro order
  induction order with
  | nil => intro df; exact List.Sublist.refl df
  | cons col rest ih =>
      intro df
      simp only [narrowAux]
      by_cases hc : col ∈ tcols
      · rw [if_pos hc]
        cases hctx : ctxGet ctx col with
        | none => exact ih df
        | some v =>
            dsimp only
            have hsub : (if (df.filter (fun r => cell_matches (getCell r col) v)).isEmpty
                then df
                else df.filter (fun r => cell_matches (getCell r col) v)).Sublist df := by
              by_cases he : (df.filter (fun r => cell_matches (getCell r col) v)).isEmpty
              · rw [if_pos he]
              · rw [if_neg he]; exact List.filter_sublist df
            by_cases hlen : (if (df.filter (fun r => cell_matches (getCell r col) v)).isEmpty
                then df
                else df.filter (fun r => cell_matches (getCell r col) v)).length = 1
            · rw [if_pos hlen]; exact hsub
            · rw [if_neg hlen]; exact (ih _).trans hsub
      · rw [if_neg hc]
        exact ih df

/-- Claim C3: candidate narrowing tries attributes in the fixed priority
order product, sub-assembly, test condition, input tray, print mode, media
type, media category, print quality; a filter step that would empty the
candidate set is skipped (a non-empty set never becomes empty); once exactly
one candidate remains nothing changes any more; and the final selection is the
first remaining row, the remaining rows being a subsequence of the source
order. -/
theorem claim_C3_priority_narrowing :
    priority_order = ["Product".data, "Sub Assembly".data, "Test Condition".data,
        "Input Tray".data, "Print Mode".data, "Media Type".data, "Media Cat".data,
        "Print Quality".data] ∧
    (∀ (tcols : List (List Char)) (ctx : List (List Char × List Char))
        (order : List (List Char)) (df : List SpecRow),
        df ≠ [] → narrowAux tcols ctx order df ≠ []) ∧
    (∀ (tcols : List (List Char)) (ctx : List (List Char × List Char))
        (order : List (List Char)) (df : List SpecRow),
        df.length = 1 → narrowAux tcols ctx order df = df) ∧
    (∀ (t : SpecTable) (ctx : List (List Char × List Char)),
        (narrowAux t.cols ctx priority_order t.rows).Sublist t.rows ∧
        find_best_spec_row t ctx = (narrowAux t.cols ctx priority_order t.rows).head?) :=
  ⟨rfl, narrowAux_ne_nil, narrowAux_singleton,
    fun t ctx => ⟨narrowAux_sublist t.cols ctx priority_order t.rows, rfl⟩⟩

/-- Witness for C3: a one-row candidate set is left untouched by the whole
priority list. -/
theorem claim_C3_witness :
    narrowAux [] [] priority_order [⟨[], some 5⟩] = [⟨[], some 5⟩] :=
  claim_C3_priority_narrowing.2.2.1 [] [] priority_order [⟨[], some 5⟩] rfl

/-- Claim C10: whenever `load_specs` succeeds (the category-filtered table is
non-empty), `find_best_spec_row` always finds a row and `evaluate` never
returns "SPEC NOT FOUND". -/
theorem claim_C10_spec_found_invariant :
    ∀ (cols : List (List Char)) (rows : List SpecRow) (category : List Char) (t : SpecTable),
      load_specs cols rows category = Except.ok t →
      (∀ ctx, (find_best_spec_row t ctx).isSome = true) ∧
      (∀ (product subAssembly : Option (List Char))
          (pivotRow : List (List Char × Option (List Char))) (actualPerK : Option ℚ),
          (evaluate t product subAssembly pivotRow actualPerK).2.2 ≠ "SPEC NOT FOUND".data) := by
  intro cols rows category t hok
  have hrows : t.rows ≠ [] := by
    unfold load_specs at hok
    by_cases hmem : "Spec Category".data ∈ cols
    · rw [if_pos hmem] at hok
      dsimp only at hok
      by_cases hemp : (rows.filter (fun r =>
          lowerL (trimL (pyStr (getCell r "Spec Category".data))) == lowerL category)).isEmpty
      · rw [if_pos hemp] at hok; cases hok
      · have hne : rows.filter (fun r =>
            lowerL (trimL (pyStr (getCell r "Spec Category".data))) == lowerL category) ≠ [] :=
          fun hnil => hemp (by rw [hnil]; rfl)
        rw [if_neg hemp] at hok
        cases hok
        exact hne
    · rw [if_neg hmem] at hok; cases hok
  have hfind : ∀ ctx, (find_best_spec_row t ctx).isSome = true := by
    intro ctx
    unfold find_best_spec_row
    cases hnil : narrowAux t.cols ctx priority_order t.rows with
    | nil => exact absurd hnil (narrowAux_ne_nil t.cols ctx priority_order t.rows hrows)
    | cons a l => rfl
  refine ⟨hfind, ?_⟩
  intro product subAssembly pivotRow actualPerK
  simp only [evaluate]
  cases hf : find_best_spec_row t (extract_test_context product subAssembly pivotRow) with
  | none =>
      have := hfind (extract_test_context product subAssembly pivotRow)
      rw [hf] at this
      cases this
  | some sr =>
      cases actualPerK with
      | none =>
          dsimp only
          decide
      | some a =>
          dsimp only
          cases hl : sr.specPerK with
          | none =>
              dsimp only
              decide
          | some limit =>
              dsimp only
              by_cases h : a ≤ limit
              · rw [if_pos h]; decide
              · rw [if_neg h]; decide

/-- Witness for C10 at a one-row specification table. -/
theorem claim_C10_witness :
    (find_best_spec_row ⟨["Spec Category".data],
        [⟨[("Spec Category".data, some "skew".data)], some 5⟩]⟩ []).isSome = true :=
  (claim_C10_spec_found_invariant ["Spec Category".data]
    [⟨[("Spec Category".data, some "skew".data)], some 5⟩] "Skew".data
    ⟨["Spec Category".data], [⟨[("Spec Category".data, some "skew".data)], some 5⟩]⟩ rfl).1 []

lemma find_fuzzy_sound :
    ∀ (cols : List (List Char)) (target col : List Char),
      find_fuzzy_column_match cols target = some col →
      col ∈ cols ∧
        (normalizeColName target = normalizeColName col ∨
          (5 < (normalizeColName target).length ∧
            (containsSub (normalizeColName col) (normalizeColName target) = true ∨
              containsSub (normalizeColName target) (normalizeColName col) = true))) := by
  intro cols target
  induction cols with
  | nil => intro col h; cases h
  | cons c rest ih =>
      intro col h
      unfold find_fuzzy_column_match at h
      rw [List.findSome?_cons] at h
      by_cases h1 : normalizeColName target = normalizeColName c
      · simp only [if_pos h1] at h
        cases h
        exact ⟨List.mem_cons_self c rest, Or.inl h1⟩
      · by_cases h2 : 5 < (normalizeColName target).length ∧
            (containsSub (normalizeColName c) (normalizeColName target) = true ∨
              containsSub (normalizeColName target) (normalizeColName c) = true)
        · simp only [if_neg h1, if_pos h2] at h
          cases h
          exact ⟨List.mem_cons_self c rest, Or.inr h2⟩
        · simp only [if_neg h1, if_neg h2] at h
          obtain ⟨hmem, hcase⟩ := ih col h
          exact ⟨List.mem_cons_of_mem c hmem, hcase⟩

/-- Claim C9: fuzzy column resolution normalizes both sides (lower-case,
'_' and '-' to spaces, trim), accepts exact normalized equality for any name,
and accepts substring containment in either direction only when the
normalized configured name is longer than 5 characters; "Paper Sailing"
resolves to "paper_sailing" while the 4-character "Nick" never resolves by
containment into a longer unrelated column. -/
theorem claim_C9_fuzzy_resolution :
    (∀ (cols : List (List Char)) (target col : List Char),
        find_fuzzy_column_match cols target = some col →
        col ∈ cols ∧
          (normalizeColName target = normalizeColName col ∨
            (5 < (normalizeColName target).length ∧
              (containsSub (normalizeColName col) (normalizeColName target) = true ∨
                containsSub (normalizeColName target) (normalizeColName col) = true)))) ∧
    (∀ (cols : List (List Char)) (target col : List Char),
        (normalizeColName target).length ≤ 5 →
        find_fuzzy_column_match cols target = some col →
        normalizeColName target = normalizeColName col) ∧
    find_fuzzy_column_match ["paper_sailing".data] "Paper Sailing".data
      = some "paper_sailing".data ∧
    find_fuzzy_column_match ["nickname count".data] "Nick".data = none := by
  refine ⟨find_fuzzy_sound, ?_, by decide, by decide⟩
  intro cols target col hlen h
  rcases (find_fuzzy_sound cols target col h).2 with heq | ⟨hgt, _⟩
  · exact heq
  · omega

/-- Witness for C9: the short name "Nick" resolves to "nick" only through
exact normalized equality. -/
theorem claim_C9_witness :
    normalizeColName "Nick".data = normalizeColName "nick".data :=
  claim_C9_fuzzy_resolution.2.1 ["nick".data] "Nick".data "nick".data (by decide) (by decide)

lemma bestAux_spec :
    ∀ (rows : List (List (List Char))) (i : Nat) (acc : Nat × Nat),
      (bestAux i acc rows = acc ∧
        ∀ (j : Nat) (hj : j < rows.length),
          2 ≤ rowScore (rows.get ⟨j, hj⟩) → rowScore (rows.get ⟨j, hj⟩) ≤ acc.2) ∨
      (∃ (j : Nat) (hj : j < rows.length),
        bestAux i acc rows = (i + j, rowScore (rows.get ⟨j, hj⟩)) ∧
        2 ≤ rowScore (rows.get ⟨j, hj⟩) ∧
        acc.2 < rowScore (rows.get ⟨j, hj⟩) ∧
        (∀ (k : Nat) (hk : k < rows.length), k < j →
          rowScore (rows.get ⟨k, hk⟩) < rowScore (rows.get ⟨j, hj⟩)) ∧
        (∀ (k : Nat) (hk : k < rows.length),
          2 ≤ rowScore (rows.get ⟨k, hk⟩) →
            rowScore (rows.get ⟨k, hk⟩) ≤ rowScore (rows.get ⟨j, hj⟩))) := by
  intro rows
  induction rows with
  | nil =>
      intro i acc
      left
      exact ⟨rfl, fun j hj => absurd hj (Nat.not_lt_zero j)⟩
  | cons row rest ih =>
      intro i acc
      have hunf : bestAux i acc (row :: rest)
          = bestAux (i + 1)
              (if 2 ≤ rowScore row ∧ acc.2 < rowScore row then (i, rowScore row) else acc)
              rest := rfl
      by_cases hupd : 2 ≤ rowScore row ∧ acc.2 < rowScore row
      · rw [if_pos hupd] at hunf
        rcases ih (i + 1) (i, rowScore row) with ⟨heq, hall⟩ |
          ⟨j, hj, heq, h2, hacc, hfirst, hmax⟩
        · right
          refine ⟨0, Nat.succ_pos rest.length, ?_, hupd.1, hupd.2, ?_, ?_⟩
          · rw [hunf, heq, Nat.add_zero]
            rfl
          · intro k hk hk0
            omega
          · intro k hk h2k
            cases k with
            | zero => exact le_refl _
            | succ n => exact hall n (Nat.lt_of_succ_lt_succ hk) h2k
        · right
          refine ⟨j + 1, Nat.succ_lt_succ hj, ?_, h2, ?_, ?_, ?_⟩
          · have hadd : i + 1 + j = i + (j + 1) := by omega
            rw [hunf, heq, hadd]
            rfl
          · show acc.2 < rowScore (rest.get ⟨j, hj⟩)
            have hup : acc.2 < rowScore row := hupd.2
            have hrj : rowScore row < rowScore (rest.get ⟨j, hj⟩) := hacc
            omega
          · intro k hk hkj
            cases k with
            | zero =>
                show rowScore row < rowScore (rest.get ⟨j, hj⟩)
                exact hacc
            | succ n => exact hfirst n (Nat.lt_of_succ_lt_succ hk) (Nat.lt_of_succ_lt_succ hkj)
          · intro k hk h2k
            cases k with
            | zero =>
                show rowScore row ≤ rowScore (rest.get ⟨j, hj⟩)
                exact Nat.le_of_lt hacc
            | succ n => exact hmax n (Nat.lt_of_succ_lt_succ hk) h2k
      · rw [if_neg hupd] at hunf
        have hsle : 2 ≤ rowScore row → rowScore row ≤ acc.2 := by
          intro h2s
          by_contra hlt
          exact hupd ⟨h2s, by omega⟩
        rcases ih (i + 1) acc with ⟨heq, hall⟩ | ⟨j, hj, heq, h2, hacc, hfirst, hmax⟩
        · left
          refine ⟨hunf.trans heq, ?_⟩
          intro k hk h2k
          cases k with
          | zero => exact hsle h2k
          | succ n => exact hall n (Nat.lt_of_succ_lt_succ hk) h2k
        · right
          refine ⟨j + 1, Nat.succ_lt_succ hj, ?_, h2, hacc, ?_, ?_⟩
          · have hadd : i + 1 + j = i + (j + 1) := by omega
            rw [hunf, heq, hadd]
            rfl
          · intro k hk hkj
            cases k with
            | zero =>
                show rowScore row < rowScore (rest.get ⟨j, hj⟩)
                rcases Nat.lt_or_ge (rowScore row) 2 with hlt2 | hge2
                · omega
                · have hle := hsle hge2
                  omega
            | succ n => exact hfirst n (Nat.lt_of_succ_lt_succ hk) (Nat.lt_of_succ_lt_succ hkj)
          · intro k hk h2k
            cases k with
            | zero =>
                show rowScore row ≤ rowScore (rest.get ⟨j, hj⟩)
                have hle := hsle h2k
                omega
            | succ n => exact hmax n (Nat.lt_of_succ_lt_succ hk) h2k

lemma bestAux_of_all_small :
    ∀ (rows : List (List (List Char))) (i : Nat) (acc : Nat × Nat),
      (∀ row ∈ rows, rowScore row < 2) → bestAux i acc rows = acc := by
  intro rows
  induction rows with
  | nil => intro i acc _; rfl
  | cons row rest ih =>
      intro i acc h
      have hrow : rowScore row < 2 := h row (List.mem_cons_self row rest)
      have hno : ¬(2 ≤ rowScore row ∧ acc.2 < rowScore row) := by omega
      show bestAux (i + 1)
          (if 2 ≤ rowScore row ∧ acc.2 < rowScore row then (i, rowScore row) else acc) rest = acc
      rw [if_neg hno]
      exact ih (i + 1) acc (fun r hr => h r (List.mem_cons_of_mem row hr))

/-- Claim C8: header detection scans at most the first 20 rows; when some
scanned row scores at least 2 key substrings, it returns the first row
attaining the maximum score; when no row scores ≥ 2 it returns the first
scanned row with at least 8 countable cells, and 1 when there is none; in
particular a header row containing "Test Condition", "Media Type" and "Unit"
literally is found at its exact index under 0, 1 or 3 leading blank rows. -/
theorem claim_C8_header_detection :
    (∀ table : List (List (List Char)),
        (∃ row ∈ table.take 20, 2 ≤ rowScore row) →
        ∃ (i : Nat) (hi : i < (table.take 20).length),
          find_header_row table = i ∧
          2 ≤ rowScore ((table.take 20).get ⟨i, hi⟩) ∧
          (∀ (j : Nat) (hj : j < (table.take 20).length),
              rowScore ((table.take 20).get ⟨j, hj⟩) ≤ rowScore ((table.take 20).get ⟨i, hi⟩)) ∧
          (∀ (j : Nat) (hj : j < (table.take 20).length), j < i →
              rowScore ((table.take 20).get ⟨j, hj⟩) < rowScore ((table.take 20).get ⟨i, hi⟩))) ∧
    (∀ (table : List (List (List Char))) (j : Nat),
        (∀ row ∈ table.take 20, rowScore row < 2) →
        (table.take 20).findIdx? (fun row => 8 ≤ nonEmptyCount row) = some j →
        find_header_row table = j) ∧
    (∀ table : List (List (List Char)),
        (∀ row ∈ table.take 20, rowScore row < 2) →
        (table.take 20).findIdx? (fun row => 8 ≤ nonEmptyCount row) = none →
        find_header_row table = 1) ∧
    find_header_row [["Test Condition".data, "Media Type".data, "Unit".data, "Tpages".data]]
      = 0 ∧
    find_header_row [["nan".data, "nan".data, "nan".data, "nan".data],
        ["Test Condition".data, "Media Type".data, "Unit".data, "Tpages".data]] = 1 ∧
    find_header_row [["nan".data, "nan".data, "nan".data, "nan".data],
        ["nan".data, "nan".data, "nan".data, "nan".data],
        ["nan".data, "nan".data, "nan".data, "nan".data],
        ["Test Condition".data, "Media Type".data, "Unit".data, "Tpages".data]] = 3 := by
  refine ⟨?_, ?_, ?_, by decide, by decide, by decide⟩
  · intro table hex
    rcases bestAux_spec (table.take 20) 0 (1, 0) with ⟨_, hall⟩ |
      ⟨j, hj, heq, h2, _, hfirst, hmax⟩
    · exfalso
      obtain ⟨row, hmem, h2r⟩ := hex
      obtain ⟨⟨nval, hn⟩, rfl⟩ := List.mem_iff_get.1 hmem
      have hle : rowScore ((table.take 20).get ⟨nval, hn⟩) ≤ 0 := hall nval hn h2r
      omega
    · refine ⟨j, hj, ?_, h2, ?_, fun k hk hkj => hfirst k hk hkj⟩
      · simp only [find_header_row]
        rw [heq]
        rw [if_pos h2]
        exact Nat.zero_add j
      · intro k hk
        rcases Nat.lt_or_ge (rowScore ((table.take 20).get ⟨k, hk⟩)) 2 with hlt2 | hge2
        · omega
        · exact hmax k hk hge2
  · intro table j hsmall hidx
    simp only [find_header_row]
    rw [bestAux_of_all_small (table.take 20) 0 (1, 0) hsmall]
    rw [if_neg (by omega)]
    rw [hidx]
  · intro table hsmall hidx
    simp only [find_header_row]
    rw [bestAux_of_all_small (table.take 20) 0 (1, 0) hsmall]
    rw [if_neg (by omega)]
    rw [hidx]

/-- Witness for C8: an empty sheet falls through both methods to row 1. -/
theorem claim_C8_witness :
    find_header_row [] = 1 :=
  claim_C8_header_detection.2.2.1 [] (by intro row h; cases h) rfl

end PrintQual
